import Mathlib

/-!
Verification of the lazyprisma migration state engine and command runtime.

Shallow embedding of the relevant Go code:
- `pkg/prisma/migrations.go` (local migration reading, checksums, classification)
- the migrations panel loader and `isMissingTableError`
- `pkg/app/app.go` (single-command gate, spinner)
- `pkg/database/client.go` (Prisma URL to driver DSN translation)

Machine integers are modelled as `Nat` with explicit reduction modulo `2^32`
where the Go code uses 32-bit arithmetic; file contents are byte lists
(`List Nat`); `*time.Time` and `*string` become `Option`.
-/

namespace LazyPrisma

/-! ### SHA-256 (crypto/sha256), executable over `Nat` -/

/-- Reduce modulo `2^32`, the word size used by SHA-256. -/
def w32 (x : Nat) : Nat := x % 4294967296

/-- Rotate the 32-bit word `x` right by `n` positions. -/
def rotr32 (n x : Nat) : Nat := w32 ((x >>> n) ||| (x <<< (32 - n)))

def bigSigma0 (x : Nat) : Nat := rotr32 2 x ^^^ rotr32 13 x ^^^ rotr32 22 x

def bigSigma1 (x : Nat) : Nat := rotr32 6 x ^^^ rotr32 11 x ^^^ rotr32 25 x

def smallSigma0 (x : Nat) : Nat := rotr32 7 x ^^^ rotr32 18 x ^^^ (x >>> 3)

def smallSigma1 (x : Nat) : Nat := rotr32 17 x ^^^ rotr32 19 x ^^^ (x >>> 10)

def shaCh (x y z : Nat) : Nat := (x &&& y) ^^^ ((x ^^^ 4294967295) &&& z)

def shaMaj (x y z : Nat) : Nat := (x &&& y) ^^^ (x &&& z) ^^^ (y &&& z)

/-- The 64 SHA-256 round constants of FIPS 180-4, in decimal. -/
def shaK : List Nat :=
  [1116352408, 1899447441, 3049323471, 3921009573, 961987163, 1508970993,
   2453635748, 2870763221, 3624381080, 310598401, 607225278, 1426881987,
   1925078388, 2162078206, 2614888103, 3248222580, 3835390401, 4022224774,
   264347078, 604807628, 770255983, 1249150122, 1555081692, 1996064986,
   2554220882, 2821834349, 2952996808, 3210313671, 3336571891, 3584528711,
   113926993, 338241895, 666307205, 773529912, 1294757372, 1396182291,
   1695183700, 1986661051, 2177026350, 2456956037, 2730485921, 2820302411,
   3259730800, 3345764771, 3516065817, 3600352804, 4094571909, 275423344,
   430227734, 506948616, 659060556, 883997877, 958139571, 1322822218,
   1537002063, 1747873779, 1955562222, 2024104815, 2227730452, 2361852424,
   2428436474, 2756734187, 3204031479, 3329325298]

/-- Working state of the SHA-256 compression function. -/
structure Hash8 where
  a : Nat
  b : Nat
  c : Nat
  d : Nat
  e : Nat
  f : Nat
  g : Nat
  h : Nat
deriving DecidableEq, Repr

/-- Initial SHA-256 hash value, in decimal. -/
def shaH0 : Hash8 :=
  { a := 1779033703, b := 3144134277, c := 1013904242, d := 2773480762,
    e := 1359893119, f := 2600822924, g := 528734635, h := 1541459225 }

/-- Big-endian byte expansion of `n` into `width` bytes. -/
def beBytes (width n : Nat) : List Nat :=
  (List.range width).map (fun i => (n >>> (8 * (width - 1 - i))) % 256)

/-- SHA-256 padding: append `0x80`, zero bytes, and the 64-bit message bit length. -/
def padMessage (msg : List Nat) : List Nat :=
  let len := msg.length
  let zeros := (64 - ((len + 9) % 64)) % 64
  msg ++ [128] ++ List.replicate zeros 0 ++ beBytes 8 (len * 8)

/-- Group bytes into big-endian 32-bit words. -/
def toWordsBE : List Nat → List Nat
  | b0 :: b1 :: b2 :: b3 :: rest =>
    (b0 * 16777216 + b1 * 65536 + b2 * 256 + b3) :: toWordsBE rest
  | _ => []

/-- Split a word list into 16-word blocks. -/
def chunk16 : List Nat → List (List Nat)
  | [] => []
  | x :: xs => (x :: xs).take 16 :: chunk16 ((x :: xs).drop 16)
termination_by l => l.length
decreasing_by simp [List.length_drop]; omega

/-- Extend a 16-word block by `fuel` schedule words. -/
def extendSchedule (w : List Nat) : Nat → List Nat
  | 0 => w
  | n + 1 =>
    let t := w.length
    let next := w32 (smallSigma1 (w.getD (t - 2) 0) + w.getD (t - 7) 0 +
                     smallSigma0 (w.getD (t - 15) 0) + w.getD (t - 16) 0)
    extendSchedule (w ++ [next]) n

/-- One round of the SHA-256 compression function. -/
def shaRound (s : Hash8) (kw : Nat × Nat) : Hash8 :=
  let t1 := w32 (s.h + bigSigma1 s.e + shaCh s.e s.f s.g + kw.1 + kw.2)
  let t2 := w32 (bigSigma0 s.a + shaMaj s.a s.b s.c)
  { a := w32 (t1 + t2), b := s.a, c := s.b, d := s.c,
    e := w32 (s.d + t1), f := s.e, g := s.f, h := s.g }

/-- Process one 512-bit block. -/
def processBlock (hv : Hash8) (block : List Nat) : Hash8 :=
  let w := extendSchedule block 48
  let s := (shaK.zip w).foldl shaRound hv
  { a := w32 (hv.a + s.a), b := w32 (hv.b + s.b), c := w32 (hv.c + s.c), d := w32 (hv.d + s.d),
    e := w32 (hv.e + s.e), f := w32 (hv.f + s.f), g := w32 (hv.g + s.g), h := w32 (hv.h + s.h) }

/-- SHA-256 of a byte list, as the eight-word final state. -/
def sha256Words (msg : List Nat) : Hash8 :=
  (chunk16 (toWordsBE (padMessage msg))).foldl processBlock shaH0

/-- Hexadecimal digit character. -/
def hexChar (n : Nat) : Char := if n < 10 then Char.ofNat (48 + n) else Char.ofNat (87 + n)

/-- Two lowercase hex characters for one byte. -/
def byteHex (b : Nat) : List Char := [hexChar (b / 16), hexChar (b % 16)]

/-- SHA-256 of a byte list as a lowercase 64-character hex string,
mirroring `hex.EncodeToString(hash[:])`. -/
def sha256Hex (msg : List Nat) : String :=
  let hv := sha256Words msg
  String.mk ((([hv.a, hv.b, hv.c, hv.d, hv.e, hv.f, hv.g, hv.h].map (beBytes 4)).flatten.map byteHex).flatten)

/-! ### calculateChecksum (pkg/prisma/migrations.go:95-116) -/

/-- CRLF → LF normalization from `calculateChecksum`: a CR byte (13) is dropped
exactly when the next byte is LF (10); every other byte is kept. -/
def normalizeCRLF : List Nat → List Nat
  | [] => []
  | b :: rest =>
    if b = 13 ∧ rest.head? = some 10 then normalizeCRLF rest
    else b :: normalizeCRLF rest

/-- `calculateChecksum`: SHA-256 hex digest of the CRLF-normalized file bytes.
The filesystem read is abstracted away: the function takes the file contents. -/
def calculateChecksum (content : List Nat) : String :=
  sha256Hex (normalizeCRLF content)

/-- Join a list of lines with the separator `sep`, with no trailing
separator: the byte contents of a text file whose lines are `lines` and
whose line ending is `sep`. Two files are "identical except for CRLF versus
LF line endings" when they are `joinSep [13, 10] lines` and
`joinSep [10] lines` for the same `lines`, where no line contains a LF byte
and no line ends in a CR byte (otherwise the LF-endings file would itself
contain a CRLF sequence). -/
def joinSep (sep : List Nat) : List (List Nat) → List Nat
  | [] => []
  | [l] => l
  | l :: ls => l ++ sep ++ joinSep sep ls

/-! ### Data model (pkg/prisma/migrations.go:17-30, 118-126, 154-159)

Field names follow the Go structs; `*time.Time` becomes `Option Nat`,
`*string` becomes `Option String`. Defaults are the Go zero values. -/

/-- `Migration` from pkg/prisma/migrations.go. -/
structure Migration where
  Name : String := ""
  Path : String := ""
  AppliedAt : Option Nat := none
  IsEmpty : Bool := false
  HasDownSQL : Bool := false
  Checksum : String := ""
  DBChecksum : String := ""
  IsFailed : Bool := false
  ChecksumMismatch : Bool := false
  Logs : Option String := none
  StartedAt : Option Nat := none
deriving DecidableEq, Repr

/-- `DBMigration` from pkg/prisma/migrations.go. -/
structure DBMigration where
  Name : String := ""
  Checksum : String := ""
  StartedAt : Option Nat := none
  FinishedAt : Option Nat := none
  RolledBackAt : Option Nat := none
  Logs : Option String := none
deriving DecidableEq, Repr

/-- `MigrationCategory` from pkg/prisma/migrations.go. -/
structure MigrationCategory where
  Local : List Migration
  Pending : List Migration
  DBOnly : List Migration
deriving DecidableEq, Repr

/-! ### CompareMigrations (pkg/prisma/migrations.go:161-238) -/

/-- Lookup in the Go map `dbMap` built by inserting each row in order: for
duplicate names the later row overwrites the earlier, so lookup returns the
last matching row. -/
def lookupLast (name : String) (dbs : List DBMigration) : Option DBMigration :=
  dbs.foldl (fun acc d => if d.Name = name then some d else acc) none

/-- First half of the found-in-DB branch of the classification loop
(lines 187-198): store the DB checksum, then mark the entry failed
(`finished_at` and `rolled_back_at` both NULL) or applied
(`finished_at` non-NULL). -/
def applyDBFields (dbMig : DBMigration) (localMig : Migration) : Migration :=
  let mig := { localMig with DBChecksum := dbMig.Checksum }
  if dbMig.FinishedAt = none ∧ dbMig.RolledBackAt = none then
    { mig with IsFailed := true, Logs := dbMig.Logs, StartedAt := dbMig.StartedAt }
  else if dbMig.FinishedAt ≠ none then
    { mig with AppliedAt := dbMig.FinishedAt }
  else mig

/-- Second half of the found-in-DB branch (lines 200-205): flag a checksum
mismatch only for non-empty entries with an `AppliedAt`, both checksums
present and unequal. -/
def applyMismatchFlag (dbMig : DBMigration) (mig : Migration) : Migration :=
  if ¬mig.IsEmpty = true ∧ mig.AppliedAt ≠ none ∧ mig.Checksum ≠ "" ∧ dbMig.Checksum ≠ "" ∧
      mig.Checksum ≠ dbMig.Checksum then
    { mig with ChecksumMismatch := true }
  else mig

/-- The per-entry enrichment performed by the local-classification loop of
`CompareMigrations` (lines 181-213): names found in the history map get the
DB-derived fields; others pass through unchanged. -/
def enrichLocal (dbs : List DBMigration) (localMig : Migration) : Migration :=
  match lookupLast localMig.Name dbs with
  | some dbMig => applyMismatchFlag dbMig (applyDBFields dbMig localMig)
  | none => localMig

/-- Construction of a `DBOnly` entry (lines 216-234). -/
def mkDBOnly (dbMig : DBMigration) : Migration :=
  let mig : Migration := { Name := dbMig.Name, Path := "", DBChecksum := dbMig.Checksum }
  if dbMig.FinishedAt = none ∧ dbMig.RolledBackAt = none then
    { mig with IsFailed := true, Logs := dbMig.Logs, StartedAt := dbMig.StartedAt }
  else if dbMig.FinishedAt ≠ none then
    { mig with AppliedAt := dbMig.FinishedAt }
  else mig

/-- `CompareMigrations`: every local migration is enriched and appended to
`Local`; those absent from the history map are additionally appended (raw)
to `Pending`; history rows without a local counterpart become `DBOnly`. -/
def CompareMigrations (localMigrations : List Migration) (dbMigrations : List DBMigration) :
    MigrationCategory :=
  { Local := localMigrations.map (enrichLocal dbMigrations)
    Pending := localMigrations.filter (fun m => (lookupLast m.Name dbMigrations).isNone)
    DBOnly := (dbMigrations.filter
        (fun d => !(localMigrations.any (fun l => l.Name == d.Name)))).map mkDBOnly }

/-! ### GetLocalMigrations (pkg/prisma/migrations.go:32-92)

The filesystem is abstracted as the state of the `<dir>/prisma/migrations`
directory: either absent, unreadable, or a listing of entries. Each entry
carries its name, whether it is a directory, and the states of the two files
`migration.sql` and `down.sql` inside it. -/

/-- State of a path on disk: absent, a directory, or a regular file with
the given byte contents. -/
inductive FsNode where
  | missing
  | directory
  | file (content : List Nat)
deriving DecidableEq, Repr

/-- One entry of the migrations directory listing (`os.ReadDir` result),
together with the relevant files inside it. -/
structure DirEntry where
  name : String
  isDir : Bool
  migrationSql : FsNode
  downSql : FsNode
deriving DecidableEq, Repr

/-- State of the migrations directory as observed by `GetLocalMigrations`. -/
inductive MigrationsDirState where
  | noDir
  | readError (msg : String)
  | listing (entries : List DirEntry)
deriving DecidableEq, Repr

/-- The per-entry body of the `GetLocalMigrations` loop (lines 52-82):
`IsEmpty` and `Checksum` from `migration.sql`, `HasDownSQL` from `down.sql`. -/
def readLocalMigration (migrationsPath : String) (entry : DirEntry) : Migration :=
  let migrationPath := migrationsPath ++ "/" ++ entry.name
  let isEmpty : Bool :=
    match entry.migrationSql with
    | .file c => !(c.length > 0 : Bool)
    | _ => true
  let checksum : String :=
    match entry.migrationSql with
    | .file c => if c.length > 0 then calculateChecksum c else ""
    | _ => ""
  let hasDownSQL : Bool :=
    match entry.downSql with
    | .file c => c.length > 0
    | _ => false
  { Name := entry.name, Path := migrationPath, IsEmpty := isEmpty,
    HasDownSQL := hasDownSQL, Checksum := checksum }

/-- Insert a migration into a name-sorted list. -/
def insertByName (m : Migration) : List Migration → List Migration
  | [] => [m]
  | x :: xs => if m.Name < x.Name then m :: x :: xs else x :: insertByName m xs

/-- Sort migrations ascending by `Name` (the `sort.Slice` call, line 87-89). -/
def sortByName : List Migration → List Migration
  | [] => []
  | m :: ms => insertByName m (sortByName ms)

/-- Collect and sort the migrations of a directory listing: only entries with
`IsDir()` true are considered (line 51); there is no other filtering. -/
def localMigrationsOfListing (migrationsPath : String) (entries : List DirEntry) :
    List Migration :=
  sortByName ((entries.filter (fun e => e.isDir)).map (readLocalMigration migrationsPath))

/-- `GetLocalMigrations`: empty list when the directory does not exist
(lines 38-40), the `ReadDir` error when listing fails (lines 43-46),
otherwise the sorted migrations of the listing. -/
def GetLocalMigrations (projectDir : String) (st : MigrationsDirState) :
    Except String (List Migration) :=
  let migrationsPath := projectDir ++ "/" ++ "prisma" ++ "/" ++ "migrations"
  match st with
  | .noDir => .ok []
  | .readError msg => .error msg
  | .listing entries => .ok (localMigrationsOfListing migrationsPath entries)

/-! ### isMissingTableError and the panel loader -/

/-- Does `pat` occur at the head of `s`? -/
def matchesAt : List Char → List Char → Bool
  | [], _ => true
  | _ :: _, [] => false
  | p :: ps, c :: cs => p = c && matchesAt ps cs

/-- Does `pat` occur anywhere in `s` (`strings.Contains`)? -/
def hasSub (pat : List Char) : List Char → Bool
  | [] => matchesAt pat []
  | c :: cs => matchesAt pat (c :: cs) || hasSub pat cs

/-- An apostrophe character, written via its code point to keep string
literals plain. -/
def apos : String := String.singleton (Char.ofNat 39)

/-- The missing-table message patterns checked by `isMissingTableError`
(PostgreSQL, MySQL, SQLite, SQL Server, Oracle). -/
def missingTablePatterns : List String :=
  ["does not exist", "doesn" ++ apos ++ "t exist", "no such table",
   "invalid object name", "table or view does not exist"]

/-- `isMissingTableError`: lowercase the error message and test it against
the five patterns. The `err == nil` guard is implicit: the model receives the
message of a non-nil error. -/
def isMissingTableError (msg : String) : Bool :=
  let errMsg := msg.data.map Char.toLower
  missingTablePatterns.any (fun pat => hasSub pat.data errMsg)

/-- The history-loading decision kernel of the migrations panel
(`loadMigrations`): a successful query categorizes against the rows; a
missing-table error categorizes against an empty history with the database
still marked connected; any other error marks the database unreachable and
leaves `Pending` and `DBOnly` empty. Returns `(dbConnected, category)`. -/
def loadMigrationsModel (localMigrations : List Migration)
    (queryResult : Except String (List DBMigration)) : Bool × MigrationCategory :=
  match queryResult with
  | .ok dbs => (true, CompareMigrations localMigrations dbs)
  | .error e =>
    if isMissingTableError e then
      (true, CompareMigrations localMigrations [])
    else
      (false, { Local := localMigrations, Pending := [], DBOnly := [] })

/-! ### Command gate (pkg/app/app.go:148-165, 197-201) -/

/-- The gate state: the atomic running flag, the published command name, and
the spinner frame index. -/
structure GateState where
  commandRunning : Bool
  runningCommandName : String
  spinnerFrame : Nat
deriving DecidableEq, Repr

/-- `tryStartCommand`: compare-and-swap on the running flag; on success store
the command name and return true, otherwise return false. It does not touch
the spinner frame. -/
def tryStartCommand (s : GateState) (commandName : String) : GateState × Bool :=
  if s.commandRunning = false then
    ({ s with commandRunning := true, runningCommandName := commandName }, true)
  else
    (s, false)

/-- `finishCommand`: clear the name, clear the flag, reset the spinner frame. -/
def finishCommand (_ : GateState) : GateState :=
  { commandRunning := false, runningCommandName := "", spinnerFrame := 0 }

/-- The spinner ticker body (lines 197-201): advance the frame modulo 4 only
while a command is running. -/
def spinnerTick (s : GateState) : GateState :=
  if s.commandRunning then { s with spinnerFrame := (s.spinnerFrame + 1) % 4 } else s

/-- One atomic step on the gate state. -/
inductive GateStep where
  | tryStart (name : String)
  | finish
  | tick
deriving DecidableEq, Repr

/-- Apply one step. -/
def gateStepApply (s : GateState) : GateStep → GateState
  | .tryStart n => (tryStartCommand s n).fst
  | .finish => finishCommand s
  | .tick => spinnerTick s

/-- Run a sequence of steps. -/
def runGate (s : GateState) (steps : List GateStep) : GateState :=
  steps.foldl gateStepApply s

/-- The results returned by the `tryStartCommand` calls of a step sequence. -/
def tryResults (s : GateState) : List GateStep → List Bool
  | [] => []
  | .tryStart n :: rest =>
    (tryStartCommand s n).snd :: tryResults (gateStepApply s (.tryStart n)) rest
  | step :: rest => tryResults (gateStepApply s step) rest

/-- The zero-initialized gate state the app starts from. -/
def gateInit : GateState :=
  { commandRunning := false, runningCommandName := "", spinnerFrame := 0 }

/-- A gate state the program can actually be in: reachable from the initial
state by gate steps. -/
def GateReachable (s : GateState) : Prop :=
  ∃ steps, runGate gateInit steps = s

/-! ### URL translation (pkg/database/client.go:92-122)

`net/url` values are abstracted as parsed components; the query string is the
`url.Values` map, modelled as an association list from key to value list.
Parsing and re-serialization (`query.Encode`, which sorts keys) are outside
the model: the claims concern parseable URLs and the parameter map. -/

/-- `url.Values.Del`: remove every binding of `key`. -/
def valuesDel (q : List (String × List String)) (key : String) :
    List (String × List String) :=
  q.filter (fun p => p.fst != key)

/-- `url.Values.Get`: first value of `key`, or `""` when absent. -/
def valuesGet (q : List (String × List String)) (key : String) : String :=
  match q.find? (fun p => p.fst == key) with
  | some (_, v :: _) => v
  | _ => ""

/-- `url.Values.Set`: bind `key` to the single value `value`. -/
def valuesSet (q : List (String × List String)) (key value : String) :
    List (String × List String) :=
  (key, [value]) :: valuesDel q key

/-- A parsed URL: the non-query components are opaque strings. -/
structure URL where
  Scheme : String := ""
  User : String := ""
  Host : String := ""
  Path : String := ""
  Query : List (String × List String) := []
  Fragment : String := ""
deriving DecidableEq, Repr

/-- `convertPostgresURL` on the parsed form: delete the `schema` parameter,
then read `sslmode` and replace it by `disable` when it is `prefer` or
absent. All other components pass through. -/
def convertPostgresURL (u : URL) : URL :=
  let query := valuesDel u.Query "schema"
  let sslmode := valuesGet query "sslmode"
  let query :=
    if sslmode = "prefer" ∨ sslmode = "" then valuesSet query "sslmode" "disable"
    else query
  { u with Query := query }

/-! ### Concrete inputs used by counterexamples and witnesses -/

/-- A local migration with a rolled-back history row (used for C1). -/
def rolledBackLocal : Migration := { Name := "20240101000000_init" }

/-- Its history row: rolled back, never finished. -/
def rolledBackRow : DBMigration :=
  { Name := "20240101000000_init", Checksum := "c", StartedAt := some 1, RolledBackAt := some 5 }

/-- A local migration whose checksum differs from its history row (C3). -/
def mismatchLocal : Migration := { Name := "20240202000000_users", Checksum := "x" }

/-- The applied history row with a different checksum. -/
def mismatchRow : DBMigration :=
  { Name := "20240202000000_users", Checksum := "y", StartedAt := some 1, FinishedAt := some 2 }

/-- A hidden directory inside `prisma/migrations` (C8 counterexample). -/
def hiddenEntry : DirEntry :=
  { name := ".hidden", isDir := true, migrationSql := .missing, downSql := .missing }

/-- A realistic listing: the lock file (a regular file) and one migration
directory (C8 witness). -/
def demoListing : List DirEntry :=
  [{ name := "migration_lock.toml", isDir := false, migrationSql := .missing, downSql := .missing },
   { name := "20240101000000_init", isDir := true, migrationSql := .missing, downSql := .missing }]

/-- A postgres URL with a `schema` parameter and no `sslmode` (C7 witness). -/
def demoURL : URL :=
  { Scheme := "postgresql", User := "u", Host := "localhost:5432", Path := "/app",
    Query := [("schema", ["public"]), ("connection_limit", ["5"])] }

end LazyPrisma

namespace LazyPrisma

/-! ## Supporting lemmas -/

/-- Enriching against an empty history is the identity. -/
theorem enrichLocal_nil (m : Migration) : enrichLocal [] m = m := rfl

/-- The mismatch step only ever touches `ChecksumMismatch`. -/
theorem applyMismatchFlag_AppliedAt (d : DBMigration) (mig : Migration) :
    (applyMismatchFlag d mig).AppliedAt = mig.AppliedAt := by
  unfold applyMismatchFlag; split <;> rfl

theorem applyMismatchFlag_IsFailed (d : DBMigration) (mig : Migration) :
    (applyMismatchFlag d mig).IsFailed = mig.IsFailed := by
  unfold applyMismatchFlag; split <;> rfl

theorem applyMismatchFlag_IsEmpty (d : DBMigration) (mig : Migration) :
    (applyMismatchFlag d mig).IsEmpty = mig.IsEmpty := by
  unfold applyMismatchFlag; split <;> rfl

theorem applyMismatchFlag_Checksum (d : DBMigration) (mig : Migration) :
    (applyMismatchFlag d mig).Checksum = mig.Checksum := by
  unfold applyMismatchFlag; split <;> rfl

theorem applyMismatchFlag_DBChecksum (d : DBMigration) (mig : Migration) :
    (applyMismatchFlag d mig).DBChecksum = mig.DBChecksum := by
  unfold applyMismatchFlag; split <;> rfl

/-- The DB-fields step always records the history checksum. -/
theorem applyDBFields_DBChecksum (d : DBMigration) (m : Migration) :
    (applyDBFields d m).DBChecksum = d.Checksum := by
  unfold applyDBFields; split
  · rfl
  · split <;> rfl

/-- The DB-fields step never clears a mismatch flag. -/
theorem applyDBFields_ChecksumMismatch (d : DBMigration) (m : Migration) :
    (applyDBFields d m).ChecksumMismatch = m.ChecksumMismatch := by
  unfold applyDBFields; split
  · rfl
  · split <;> rfl

/-- The DB-fields step never touches `IsEmpty` or `Checksum`. -/
theorem applyDBFields_IsEmpty (d : DBMigration) (m : Migration) :
    (applyDBFields d m).IsEmpty = m.IsEmpty := by
  unfold applyDBFields; split
  · rfl
  · split <;> rfl

theorem applyDBFields_Checksum (d : DBMigration) (m : Migration) :
    (applyDBFields d m).Checksum = m.Checksum := by
  unfold applyDBFields; split
  · rfl
  · split <;> rfl

/-- In the applied case, `AppliedAt` is copied from `finished_at`. -/
theorem applyDBFields_applied (d : DBMigration) (m : Migration)
    (h1 : ¬(d.FinishedAt = none ∧ d.RolledBackAt = none)) (h2 : d.FinishedAt ≠ none) :
    (applyDBFields d m).AppliedAt = d.FinishedAt := by
  simp only [applyDBFields, if_neg h1, if_pos h2]

/-- In the rolled-back-without-finish case, only the DB checksum is copied. -/
theorem applyDBFields_stationary (d : DBMigration) (m : Migration)
    (h1 : ¬(d.FinishedAt = none ∧ d.RolledBackAt = none)) (h2 : ¬d.FinishedAt ≠ none) :
    applyDBFields d m = { m with DBChecksum := d.Checksum } := by
  simp only [applyDBFields, if_neg h1, if_neg h2]

/-- `CompareMigrations` against an empty history: everything local is
pending, nothing is DB-only. -/
theorem compareMigrations_nil (locals : List Migration) :
    CompareMigrations locals [] =
      { Local := locals, Pending := locals, DBOnly := [] } := by
  have h1 : locals.map (enrichLocal []) = locals := by
    induction locals with
    | nil => rfl
    | cons a t ih => simp [enrichLocal_nil, ih]
  have h2 : locals.filter (fun m => (lookupLast m.Name []).isNone) = locals := by
    induction locals with
    | nil => rfl
    | cons a t ih => simp [List.filter_cons, lookupLast, ih]
  simp [CompareMigrations, h1, h2]

/-! ## C10 -/

/-- C10: when the migrations directory does not exist, `GetLocalMigrations`
returns an empty list and no error. -/
theorem getLocalMigrations_no_dir (projectDir : String) :
    GetLocalMigrations projectDir MigrationsDirState.noDir = Except.ok [] := rfl

/-! ## C9 -/

/-- C9: every entry of `Pending` is, as an identical record (all fields
equal), an entry of `Local`: the classification loop appends the very same
`Migration` value to both lists when the name is absent from the history. -/
theorem pending_subset_local (locals : List Migration) (dbs : List DBMigration)
    (m : Migration) (hm : m ∈ (CompareMigrations locals dbs).Pending) :
    m ∈ (CompareMigrations locals dbs).Local := by
  simp only [CompareMigrations] at hm ⊢
  obtain ⟨hmem, hcond⟩ := List.mem_filter.mp hm
  have hnone : lookupLast m.Name dbs = none := by
    simpa [Option.isNone_iff_eq_none] using hcond
  have hfix : enrichLocal dbs m = m := by
    simp [enrichLocal, hnone]
  exact hfix ▸ List.mem_map_of_mem (enrichLocal dbs) hmem

/-- Witness for C9 at a concrete input. -/
theorem pending_subset_local_witness :
    ({ Name := "20240101000000_init" } : Migration) ∈
      (CompareMigrations [{ Name := "20240101000000_init" }] []).Local :=
  pending_subset_local _ _ _ (by decide)

/-! ## C1 -/

/-- C1 counterexample: a local migration whose history row has
`rolled_back_at != NULL` (here with `finished_at = NULL`) is NOT placed in
the `Pending` list — the classification loop appends any name found in the
history map to `Local` only, so `Pending` comes out empty, refuting the
claim that such a migration is placed in both `Pending` and `Local`. -/
theorem rolledBack_not_in_pending_cex :
    (CompareMigrations [rolledBackLocal] [rolledBackRow]).Pending = [] ∧
    (CompareMigrations [rolledBackLocal] [rolledBackRow]).Local ≠ [] := by decide

/-- C1 as amended: a local migration whose history row has
`rolled_back_at != NULL` is placed in the `Local` list only, never in
`Pending`; when `finished_at != NULL` it is additionally marked applied
(`AppliedAt = finished_at`), and when `finished_at = NULL` it keeps the
local record's `AppliedAt` and `IsFailed` (so it merely looks pending
field-wise, without `Pending` membership). -/
theorem rolledBack_local_only (locals : List Migration) (dbs : List DBMigration)
    (m : Migration) (d : DBMigration) (hm : m ∈ locals)
    (hl : lookupLast m.Name dbs = some d) (hrb : d.RolledBackAt ≠ none) :
    enrichLocal dbs m ∈ (CompareMigrations locals dbs).Local ∧
    (∀ p ∈ (CompareMigrations locals dbs).Pending, p.Name ≠ m.Name) ∧
    (d.FinishedAt ≠ none → (enrichLocal dbs m).AppliedAt = d.FinishedAt) ∧
    (d.FinishedAt = none → (enrichLocal dbs m).AppliedAt = m.AppliedAt ∧
      (enrichLocal dbs m).IsFailed = m.IsFailed) := by
  refine ⟨List.mem_map_of_mem (enrichLocal dbs) hm, ?_, ?_, ?_⟩
  · intro p hp hpn
    have hcond := (List.mem_filter.mp hp).2
    rw [hpn, hl] at hcond
    simp at hcond
  · intro hfin
    have h1 : ¬(d.FinishedAt = none ∧ d.RolledBackAt = none) := fun h => hrb h.2
    simp only [enrichLocal, hl]
    rw [applyMismatchFlag_AppliedAt, applyDBFields_applied d m h1 hfin]
  · intro hfin
    have h1 : ¬(d.FinishedAt = none ∧ d.RolledBackAt = none) := fun h => hrb h.2
    have h2 : ¬d.FinishedAt ≠ none := fun h => h hfin
    simp only [enrichLocal, hl]
    rw [applyMismatchFlag_AppliedAt, applyMismatchFlag_IsFailed,
      applyDBFields_stationary d m h1 h2]
    exact ⟨rfl, rfl⟩

/-- Witness for the amended C1 at a concrete input. -/
theorem rolledBack_local_only_witness :
    enrichLocal [rolledBackRow] rolledBackLocal ∈
      (CompareMigrations [rolledBackLocal] [rolledBackRow]).Local ∧
    (enrichLocal [rolledBackRow] rolledBackLocal).AppliedAt = none := by
  have h := rolledBack_local_only [rolledBackLocal] [rolledBackRow]
    rolledBackLocal rolledBackRow (by decide) (by decide) (by decide)
  exact ⟨h.1, (h.2.2.2 (by decide)).1⟩

/-! ## C4 -/

/-- C4: a history query failing with a missing-table message is treated as
an empty history: the database counts as reachable (`dbConnected = true`),
`Pending` equals the local list (unchanged records) and `DBOnly` is empty. -/
theorem missingTable_empty_history (locals : List Migration) (e : String)
    (h : isMissingTableError e = true) :
    loadMigrationsModel locals (Except.error e) =
      (true, { Local := locals, Pending := locals, DBOnly := [] }) := by
  simp [loadMigrationsModel, h, compareMigrations_nil]

/-- Witness for C4 at a concrete SQLite-style error message. -/
theorem missingTable_empty_history_witness :
    loadMigrationsModel [mismatchLocal] (Except.error "no such table: _prisma_migrations") =
      (true, { Local := [mismatchLocal], Pending := [mismatchLocal], DBOnly := [] }) :=
  missingTable_empty_history [mismatchLocal] "no such table: _prisma_migrations" (by decide)

/-! ## C5 -/

/-- While the flag is up, every `tryStartCommand` in a finish-free step
sequence returns false. -/
theorem tryResults_all_false (steps : List GateStep) :
    ∀ s : GateState, s.commandRunning = true → GateStep.finish ∉ steps →
      ∀ b ∈ tryResults s steps, b = false := by
  induction steps with
  | nil => intro s _ _ b hb; simp [tryResults] at hb
  | cons st rest ih =>
    intro s hrun hnf b hb
    cases st with
    | tryStart n =>
      have hfail : tryStartCommand s n = (s, false) := by
        simp [tryStartCommand, hrun]
      rw [tryResults, hfail] at hb
      rcases List.mem_cons.mp hb with h | h
      · exact h
      · have : gateStepApply s (GateStep.tryStart n) = s := by
          simp [gateStepApply, hfail]
        rw [this] at h
        exact ih s hrun (fun hc => hnf (List.mem_cons_of_mem _ hc)) b h
    | finish => exact absurd (List.mem_cons_self _ _) hnf
    | tick =>
      have hb' : b ∈ tryResults (spinnerTick s) rest := by
        simpa [tryResults, gateStepApply] using hb
      have hrun' : (spinnerTick s).commandRunning = true := by
        simp [spinnerTick, hrun]
      exact ih (spinnerTick s) hrun' (fun hc => hnf (List.mem_cons_of_mem _ hc)) b hb'

/-- C5: the gate admits at most one command at a time: once a
`tryStartCommand` call has returned true, every later `tryStartCommand`
returns false until a `finishCommand` step occurs, so two successful calls
never overlap. -/
theorem command_gate_mutual_exclusion (s : GateState) (n : String) (steps : List GateStep)
    (hstart : (tryStartCommand s n).snd = true) (hnf : GateStep.finish ∉ steps) :
    ∀ b ∈ tryResults (tryStartCommand s n).fst steps, b = false := by
  have hrun : (tryStartCommand s n).fst.commandRunning = true := by
    by_cases h : s.commandRunning = false
    · simp [tryStartCommand, h]
    · simp [tryStartCommand, h] at hstart
  exact tryResults_all_false steps _ hrun hnf

/-- Witness for C5: after a successful start from the initial state, a
second `tryStartCommand` returns false. -/
theorem command_gate_mutual_exclusion_witness :
    (tryStartCommand (tryStartCommand gateInit "Refresh All").fst "Deploy").snd = false :=
  command_gate_mutual_exclusion gateInit "Refresh All" [GateStep.tryStart "Deploy"]
    (by decide) (by decide) _ (by decide)

/-! ## C6 -/

/-- Gate invariant: along any run from the initial state, whenever the
running flag is down the spinner frame is 0 (the ticker only advances the
frame while the flag is up, and `finishCommand` resets it). -/
theorem gate_idle_frame_zero (steps : List GateStep) :
    ∀ s : GateState, (s.commandRunning = false → s.spinnerFrame = 0) →
      ((runGate s steps).commandRunning = false → (runGate s steps).spinnerFrame = 0) := by
  induction steps with
  | nil => intro s h; exact h
  | cons st rest ih =>
    intro s h
    have hstep : (gateStepApply s st).commandRunning = false →
        (gateStepApply s st).spinnerFrame = 0 := by
      cases st with
      | tryStart n =>
        by_cases hr : s.commandRunning = false
        · intro hfalse
          simp [gateStepApply, tryStartCommand, hr] at hfalse
        · simp only [gateStepApply, tryStartCommand, hr, if_neg]
          exact h
      | finish => intro _; rfl
      | tick =>
        by_cases hr : s.commandRunning
        · intro hfalse
          simp [gateStepApply, spinnerTick, hr] at hfalse
        · simpa [gateStepApply, spinnerTick, hr] using h
    exact ih (gateStepApply s st) hstep

/-- C6: in every reachable gate state with the running flag down, a
`tryStartCommand n` call raises the flag, publishes `n`, returns true, and
leaves the spinner frame at 0 — the frame is 0 in every such state (the
reset itself is performed by `finishCommand`, not by `tryStartCommand`, but
the 0 frame is an invariant of idle states). -/
theorem tryStartCommand_from_idle (s : GateState) (n : String)
    (hreach : GateReachable s) (hidle : s.commandRunning = false) :
    tryStartCommand s n =
      ({ commandRunning := true, runningCommandName := n, spinnerFrame := 0 }, true) := by
  obtain ⟨steps, hsteps⟩ := hreach
  have hframe : s.spinnerFrame = 0 := by
    have h := gate_idle_frame_zero steps gateInit (fun _ => rfl)
    rw [hsteps] at h
    exact h hidle
  cases s with
  | mk r nm f =>
    simp only at hidle hframe
    subst hidle hframe
    simp [tryStartCommand]

/-- Witness for C6 at the initial state. -/
theorem tryStartCommand_from_idle_witness :
    tryStartCommand gateInit "Refresh All" =
      ({ commandRunning := true, runningCommandName := "Refresh All", spinnerFrame := 0 },
        true) :=
  tryStartCommand_from_idle gateInit "Refresh All" ⟨[], rfl⟩ rfl

/-! ## C3 -/

/-- DB-only entries are never flagged as mismatched. -/
theorem mkDBOnly_no_mismatch (d : DBMigration) : (mkDBOnly d).ChecksumMismatch = false := by
  unfold mkDBOnly; split
  · rfl
  · split <;> rfl

/-- If enrichment sets the mismatch flag on a migration that entered without
it, then the enriched entry is applied, non-empty, and its two checksums
differ. -/
theorem enrichLocal_mismatch_sound (dbs : List DBMigration) (m : Migration)
    (hm : m.ChecksumMismatch = false)
    (hcm : (enrichLocal dbs m).ChecksumMismatch = true) :
    (enrichLocal dbs m).AppliedAt ≠ none ∧ (enrichLocal dbs m).IsEmpty = false ∧
    (enrichLocal dbs m).Checksum ≠ (enrichLocal dbs m).DBChecksum := by
  cases hl : lookupLast m.Name dbs with
  | none =>
    simp only [enrichLocal, hl] at hcm
    rw [hm] at hcm
    exact absurd hcm (by simp)
  | some d =>
    simp only [enrichLocal, hl] at hcm ⊢
    set mig := applyDBFields d m with hmig
    have hcm2 : mig.ChecksumMismatch = false := by
      rw [hmig, applyDBFields_ChecksumMismatch, hm]
    by_cases hc : ¬mig.IsEmpty = true ∧ mig.AppliedAt ≠ none ∧ mig.Checksum ≠ "" ∧
        d.Checksum ≠ "" ∧ mig.Checksum ≠ d.Checksum
    · simp only [applyMismatchFlag, if_pos hc]
      refine ⟨hc.2.1, ?_, ?_⟩
      · simpa using hc.1
      · have hdb : mig.DBChecksum = d.Checksum := by rw [hmig, applyDBFields_DBChecksum]
        simpa [hdb] using hc.2.2.2.2
    · simp only [applyMismatchFlag, if_neg hc] at hcm
      rw [hcm2] at hcm
      exact absurd hcm (by simp)

/-- C3: for inputs as produced by the local reader (which never sets
`ChecksumMismatch`), every entry of any list of the returned
`MigrationCategory` with `ChecksumMismatch = true` has a non-nil
`AppliedAt`, is non-empty, and has `Checksum ≠ DBChecksum`. -/
theorem checksumMismatch_invariant (locals : List Migration) (dbs : List DBMigration)
    (hin : ∀ m ∈ locals, m.ChecksumMismatch = false) (m : Migration)
    (hmem : m ∈ (CompareMigrations locals dbs).Local ∨
      m ∈ (CompareMigrations locals dbs).Pending ∨
      m ∈ (CompareMigrations locals dbs).DBOnly)
    (hcm : m.ChecksumMismatch = true) :
    m.AppliedAt ≠ none ∧ m.IsEmpty = false ∧ m.Checksum ≠ m.DBChecksum := by
  rcases hmem with h | h | h
  · simp only [CompareMigrations] at h
    obtain ⟨l, hl, rfl⟩ := List.mem_map.mp h
    exact enrichLocal_mismatch_sound dbs l (hin l hl) hcm
  · simp only [CompareMigrations] at h
    have hfalse := hin m (List.mem_filter.mp h).1
    rw [hfalse] at hcm
    exact absurd hcm (by simp)
  · simp only [CompareMigrations] at h
    obtain ⟨dd, _, rfl⟩ := List.mem_map.mp h
    rw [mkDBOnly_no_mismatch] at hcm
    exact absurd hcm (by simp)

/-- Witness for C3: a concrete applied migration with differing checksums. -/
theorem checksumMismatch_invariant_witness :
    ({ Name := "20240202000000_users", Checksum := "x", DBChecksum := "y",
       AppliedAt := some 2, ChecksumMismatch := true } : Migration).AppliedAt ≠ none ∧
    ({ Name := "20240202000000_users", Checksum := "x", DBChecksum := "y",
       AppliedAt := some 2, ChecksumMismatch := true } : Migration).IsEmpty = false ∧
    ({ Name := "20240202000000_users", Checksum := "x", DBChecksum := "y",
       AppliedAt := some 2, ChecksumMismatch := true } : Migration).Checksum ≠
      ({ Name := "20240202000000_users", Checksum := "x", DBChecksum := "y",
         AppliedAt := some 2, ChecksumMismatch := true } : Migration).DBChecksum :=
  checksumMismatch_invariant [mismatchLocal] [mismatchRow] (by decide) _
    (Or.inl (by decide)) (by decide)

/-! ## C7 -/

/-- Key lookup skips a pair with a different key. -/
theorem findKey_cons_ne (a : String × List String) (l : List (String × List String))
    (k : String) (h : ¬a.fst = k) :
    (a :: l).find? (fun p => p.fst == k) = l.find? (fun p => p.fst == k) := by
  apply List.find?_cons_of_neg
  simp [h]

/-- Key lookup stops at a pair with the matching key. -/
theorem findKey_cons_eq (a : String × List String) (l : List (String × List String))
    (k : String) (h : a.fst = k) :
    (a :: l).find? (fun p => p.fst == k) = some a := by
  apply List.find?_cons_of_pos
  simp [h]

/-- Deleting one key leaves lookups of any other key unchanged. -/
theorem find?_valuesDel_ne (q : List (String × List String)) (k k' : String) (h : k ≠ k') :
    (valuesDel q k').find? (fun p => p.fst == k) = q.find? (fun p => p.fst == k) := by
  induction q with
  | nil => rfl
  | cons p t ih =>
    by_cases hp : p.fst = k'
    · have hdrop : valuesDel (p :: t) k' = valuesDel t k' := by
        simp [valuesDel, List.filter_cons, hp]
      have hpk : ¬p.fst = k := fun e => h (e.symm.trans hp)
      rw [hdrop, ih, findKey_cons_ne p t k hpk]
    · have hkeep : valuesDel (p :: t) k' = p :: valuesDel t k' := by
        simp [valuesDel, List.filter_cons, hp]
      rw [hkeep]
      by_cases hk : p.fst = k
      · rw [findKey_cons_eq p _ k hk, findKey_cons_eq p t k hk]
      · rw [findKey_cons_ne p _ k hk, findKey_cons_ne p t k hk, ih]

/-- After deleting a key, looking it up fails. -/
theorem find?_valuesDel_self (q : List (String × List String)) (k : String) :
    (valuesDel q k).find? (fun p => p.fst == k) = none := by
  induction q with
  | nil => rfl
  | cons p t ih =>
    by_cases hp : p.fst = k
    · have hdrop : valuesDel (p :: t) k = valuesDel t k := by
        simp [valuesDel, List.filter_cons, hp]
      rw [hdrop]
      exact ih
    · have hkeep : valuesDel (p :: t) k = p :: valuesDel t k := by
        simp [valuesDel, List.filter_cons, hp]
      rw [hkeep, findKey_cons_ne p _ k hp]
      exact ih

/-- C7: for every parsed postgres-family URL, the translation removes the
`schema` query parameter and preserves every other query parameter and every
non-query component; when `sslmode` is absent or `prefer` it additionally
sets `sslmode=disable`. -/
theorem convertPostgresURL_spec (u : URL) :
    (convertPostgresURL u).Scheme = u.Scheme ∧
    (convertPostgresURL u).User = u.User ∧
    (convertPostgresURL u).Host = u.Host ∧
    (convertPostgresURL u).Path = u.Path ∧
    (convertPostgresURL u).Fragment = u.Fragment ∧
    (convertPostgresURL u).Query.find? (fun p => p.fst == "schema") = none ∧
    ((valuesGet u.Query "sslmode" = "" ∨ valuesGet u.Query "sslmode" = "prefer") →
      valuesGet (convertPostgresURL u).Query "sslmode" = "disable") ∧
    ∀ k, k ≠ "schema" → k ≠ "sslmode" →
      (convertPostgresURL u).Query.find? (fun p => p.fst == k) =
        u.Query.find? (fun p => p.fst == k) := by
  have hget : valuesGet (valuesDel u.Query "schema") "sslmode" = valuesGet u.Query "sslmode" := by
    simp only [valuesGet]
    rw [find?_valuesDel_ne u.Query "sslmode" "schema" (by decide)]
  by_cases hcond : valuesGet (valuesDel u.Query "schema") "sslmode" = "prefer" ∨
      valuesGet (valuesDel u.Query "schema") "sslmode" = ""
  · have hconv : convertPostgresURL u =
        { u with Query := valuesSet (valuesDel u.Query "schema") "sslmode" "disable" } := by
      simp only [convertPostgresURL, if_pos hcond]
    rw [hconv]
    refine ⟨rfl, rfl, rfl, rfl, rfl, ?_, ?_, ?_⟩
    · simp only [valuesSet]
      rw [findKey_cons_ne _ _ "schema" (by decide),
        find?_valuesDel_ne _ "schema" "sslmode" (by decide), find?_valuesDel_self]
    · intro _
      simp [valuesGet, valuesSet]
    · intro k hks hkm
      simp only [valuesSet]
      have hne : ¬(("sslmode", ["disable"]).fst = k) := fun e => hkm e.symm
      rw [findKey_cons_ne _ _ k hne,
        find?_valuesDel_ne _ k "sslmode" hkm, find?_valuesDel_ne _ k "schema" hks]
  · have hconv : convertPostgresURL u = { u with Query := valuesDel u.Query "schema" } := by
      simp only [convertPostgresURL, if_neg hcond]
    rw [hconv]
    refine ⟨rfl, rfl, rfl, rfl, rfl, ?_, ?_, ?_⟩
    · exact find?_valuesDel_self u.Query "schema"
    · intro h
      exact absurd (by rw [hget]; exact h.symm) hcond
    · intro k hks _
      exact find?_valuesDel_ne u.Query k "schema" hks

/-- Witness for C7: a URL with a `schema` parameter, an unrelated parameter,
and no `sslmode`. -/
theorem convertPostgresURL_spec_witness :
    (convertPostgresURL demoURL).Query.find? (fun p => p.fst == "schema") = none ∧
    valuesGet (convertPostgresURL demoURL).Query "sslmode" = "disable" :=
  ⟨(convertPostgresURL_spec demoURL).2.2.2.2.2.1,
   (convertPostgresURL_spec demoURL).2.2.2.2.2.2.1 (Or.inl rfl)⟩

/-! ## C8 -/

/-- Insertion into the name-sorted list preserves membership. -/
theorem mem_insertByName (m x : Migration) (l : List Migration) :
    m ∈ insertByName x l ↔ m = x ∨ m ∈ l := by
  induction l with
  | nil => simp [insertByName]
  | cons a t ih =>
    simp only [insertByName]
    split
    · simp [List.mem_cons]
    · simp only [List.mem_cons, ih]
      tauto

/-- Sorting by name preserves membership. -/
theorem mem_sortByName (m : Migration) (l : List Migration) :
    m ∈ sortByName l ↔ m ∈ l := by
  induction l with
  | nil => simp [sortByName]
  | cons a t ih => simp [sortByName, mem_insertByName, ih]

/-- C8 counterexample: a hidden directory `.hidden` inside
`prisma/migrations` DOES appear as a `Migration` — the loop only checks
`entry.IsDir()` and never skips dot-named entries, refuting the claim that
no hidden entry appears in the returned list. -/
theorem getLocalMigrations_hidden_dir_cex :
    ((GetLocalMigrations "proj" (MigrationsDirState.listing [hiddenEntry])).toOption.getD
      []).map Migration.Name = [".hidden"] := rfl

/-- C8 as amended: the reader keeps exactly the directory entries: every
returned `Migration` is named after a directory entry of the listing, so
non-directory entries — in particular the lock file, a regular file — never
appear; hidden entries are only skipped when they are not directories
(a hidden directory does appear, as the counterexample shows). -/
theorem getLocalMigrations_only_dirs (migrationsPath : String) (entries : List DirEntry) :
    (∀ m ∈ localMigrationsOfListing migrationsPath entries,
      ∃ e ∈ entries, e.isDir = true ∧ m.Name = e.name) ∧
    ((∀ e ∈ entries, e.name = "migration_lock.toml" → e.isDir = false) →
      ∀ m ∈ localMigrationsOfListing migrationsPath entries,
        m.Name ≠ "migration_lock.toml") := by
  have hmain : ∀ m ∈ localMigrationsOfListing migrationsPath entries,
      ∃ e ∈ entries, e.isDir = true ∧ m.Name = e.name := by
    intro m hm
    rw [localMigrationsOfListing, mem_sortByName] at hm
    obtain ⟨e, he, rfl⟩ := List.mem_map.mp hm
    obtain ⟨hmem, hdir⟩ := List.mem_filter.mp he
    exact ⟨e, hmem, hdir, rfl⟩
  refine ⟨hmain, ?_⟩
  intro hlock m hm hname
  obtain ⟨e, he, hdir, hn⟩ := hmain m hm
  have hfalse := hlock e he (hn.symm.trans hname)
  rw [hfalse] at hdir
  exact absurd hdir (by simp)

/-- Witness for the amended C8: with a listing that holds the lock file (a
regular file) and one migration directory, the returned migration is not the
lock file. -/
theorem getLocalMigrations_only_dirs_witness :
    ({ Name := "20240101000000_init", Path := "proj/prisma/migrations/20240101000000_init",
       IsEmpty := true } : Migration).Name ≠ "migration_lock.toml" :=
  (getLocalMigrations_only_dirs "proj/prisma/migrations" demoListing).2 (by decide) _
    (by decide)

/-! ## C2 -/

/-- A leading LF passes through normalization. -/
theorem normalizeCRLF_cons_lf (rest : List Nat) :
    normalizeCRLF (10 :: rest) = 10 :: normalizeCRLF rest := by
  rw [normalizeCRLF, if_neg (by simp)]

/-- A leading CRLF normalizes to LF. -/
theorem normalizeCRLF_cons_crlf (rest : List Nat) :
    normalizeCRLF (13 :: 10 :: rest) = 10 :: normalizeCRLF rest := by
  rw [normalizeCRLF, if_pos (by simp), normalizeCRLF_cons_lf]

/-- Normalization is the identity on LF-free byte lists (no CR can be
followed by a LF). -/
theorem normalizeCRLF_no_lf (l : List Nat) (h : 10 ∉ l) : normalizeCRLF l = l := by
  induction l with
  | nil => rfl
  | cons b t ih =>
    have hcond : ¬(b = 13 ∧ t.head? = some 10) := by
      rintro ⟨-, hh⟩
      cases t with
      | nil => simp at hh
      | cons x xs =>
        simp only [List.head?_cons, Option.some.injEq] at hh
        exact h (by simp [hh])
    rw [normalizeCRLF, if_neg hcond]
    exact congrArg (List.cons b) (ih fun hm => h (List.mem_cons_of_mem _ hm))

/-- Normalization of the concatenation of a line and a tail: when the line
has no LF and does not end in CR, the line passes through untouched and
normalization continues in the tail. -/
theorem normalizeCRLF_append (l tail : List Nat) (h10 : 10 ∉ l)
    (h13 : l.getLast? ≠ some 13) :
    normalizeCRLF (l ++ tail) = l ++ normalizeCRLF tail := by
  induction l with
  | nil => simp
  | cons b t ih =>
    have hcond : ¬(b = 13 ∧ (t ++ tail).head? = some 10) := by
      rintro ⟨hb13, hh⟩
      cases t with
      | nil => exact h13 (by simp [hb13])
      | cons x xs =>
        simp only [List.cons_append, List.head?_cons, Option.some.injEq] at hh
        exact h10 (by simp [hh])
    have h10' : 10 ∉ t := fun hm => h10 (List.mem_cons_of_mem _ hm)
    have h13' : t.getLast? ≠ some 13 := by
      cases t with
      | nil => simp
      | cons x xs =>
        intro hc
        exact h13 (by rw [List.getLast?_cons_cons]; exact hc)
    simp only [List.cons_append]
    rw [normalizeCRLF, if_neg hcond, ih h10' h13']

/-- Normalizing the CRLF-joined file yields the LF-joined file. -/
theorem normalizeCRLF_joinSep_crlf (lines : List (List Nat))
    (h : ∀ l ∈ lines, 10 ∉ l ∧ l.getLast? ≠ some 13) :
    normalizeCRLF (joinSep [13, 10] lines) = joinSep [10] lines := by
  induction lines with
  | nil => rfl
  | cons l ls ih =>
    cases ls with
    | nil =>
      simp only [joinSep]
      exact normalizeCRLF_no_lf l (h l (by simp)).1
    | cons l2 ls2 =>
      have hl := h l (by simp)
      have hcons : ([13, 10] : List Nat) ++ joinSep [13, 10] (l2 :: ls2) =
          13 :: 10 :: joinSep [13, 10] (l2 :: ls2) := rfl
      simp only [joinSep]
      rw [List.append_assoc, normalizeCRLF_append l _ hl.1 hl.2, hcons,
        normalizeCRLF_cons_crlf, ih (fun x hx => h x (List.mem_cons_of_mem _ hx))]
      simp

/-- Normalizing the LF-joined file is the identity. -/
theorem normalizeCRLF_joinSep_lf (lines : List (List Nat))
    (h : ∀ l ∈ lines, 10 ∉ l ∧ l.getLast? ≠ some 13) :
    normalizeCRLF (joinSep [10] lines) = joinSep [10] lines := by
  induction lines with
  | nil => rfl
  | cons l ls ih =>
    cases ls with
    | nil =>
      simp only [joinSep]
      exact normalizeCRLF_no_lf l (h l (by simp)).1
    | cons l2 ls2 =>
      have hl := h l (by simp)
      have hcons : ([10] : List Nat) ++ joinSep [10] (l2 :: ls2) =
          10 :: joinSep [10] (l2 :: ls2) := rfl
      simp only [joinSep]
      rw [List.append_assoc, normalizeCRLF_append l _ hl.1 hl.2, hcons,
        normalizeCRLF_cons_lf, ih (fun x hx => h x (List.mem_cons_of_mem _ hx))]

/-- C2: the checksum is SHA-256 of the file bytes after CRLF → LF
normalization and nothing else, so two files that are identical except that
one uses CRLF line endings where the other uses LF (same `lines`, joined
with `[13, 10]` respectively `[10]`; a line holds no LF and does not end in
CR, since otherwise the LF-endings file would itself contain CRLF bytes)
produce the same hex digest. -/
theorem calculateChecksum_crlf_lf_stable (lines : List (List Nat))
    (h : ∀ l ∈ lines, 10 ∉ l ∧ l.getLast? ≠ some 13) :
    calculateChecksum (joinSep [13, 10] lines) = calculateChecksum (joinSep [10] lines) := by
  unfold calculateChecksum
  rw [normalizeCRLF_joinSep_crlf lines h, normalizeCRLF_joinSep_lf lines h]

/-- Witness for C2: the two-line file "hi/ok" with a trailing newline. -/
theorem calculateChecksum_crlf_lf_stable_witness :
    calculateChecksum (joinSep [13, 10] [[104, 105], [111, 107], []]) =
      calculateChecksum (joinSep [10] [[104, 105], [111, 107], []]) :=
  calculateChecksum_crlf_lf_stable [[104, 105], [111, 107], []] (by decide)

end LazyPrisma
